import Mathlib

/-!
Verification of the word-wrapping / line-truncating stream engine in
`lib/argp-fmtstream.c` (struct argp_fmtstream and the functions
`__argp_make_fmtstream`, `__argp_fmtstream_free`, `line_at_point`,
`__argp_fmtstream_update`, `__argp_fmtstream_ensure`,
`__argp_fmtstream_printf`).

Shallow-embedding conventions, fixed once here and referenced below:

* The buffer is the owned allocation `buf : List Nat` of bytes, indexed by
  integer offsets.  `p`, `point_offs` are the C cursors `fs->p - fs->buf`
  and `fs->point_offs`; `capacity_end` is `buf.length`.
* C pointer and `size_t` arithmetic is arithmetic modulo 2^64 on machine
  addresses.  All quantities the code manipulates stay far below 2^62 in
  magnitude, so `base + off (mod 2^64)` comparisons and differences agree
  with exact integer arithmetic on the offsets; offsets are therefore
  modelled as `Int`.  In particular `size_t space_needed = fs->wmargin`
  converts `-1` to `2^64 - 1`, and `fs->p + space_needed` then equals
  `fs->p - 1` modulo 2^64: the model writes `wmargin + suffixLen : Int`
  for the effective space amount, which is the exact resolution of that
  congruence.
* Heap model: `malloc`-fresh bytes read as 0, and reads outside the
  allocation (possible in this code) also read 0; a scan that would run
  off the end of mapped memory (a `memchr`/`memmove` whose `size_t`
  length is the conversion of a negative number, i.e. at least 2^63)
  that does not hit its target inside the allocation is a crash,
  modelled as `none`.  Writes outside the allocation corrupt memory the
  model does not track and are dropped from the modelled buffer.
* Loops are modelled with fuel; exhausted fuel is `none`
  (non-termination), so `some` results are exactly the terminating,
  non-crashing executions.
* The byte sink (`fwrite_unlocked`/`putc_unlocked`) is modelled by
  accumulating the emitted bytes in `output`; for `ensure`, the number
  of bytes the sink accepts in the flush is a parameter `accept`.
* `log` is ghost instrumentation only: it records the
  (start, length, write-cursor, point) arguments of each literal
  terminator search (`memchr`) the truncate-mode rewrite pass performs.
  It influences no control flow and no data.
-/

set_option maxRecDepth 10000

/-- Parameters of one `memchr` terminator search performed by the
truncate-mode rewrite pass (ghost record): `start` and `len` are the
address offset and byte count handed to `memchr`, `pAt` and `poAt` the
values of the write cursor and of `point_offs` at the call. -/
structure SRec where
  start : Int
  len : Int
  pAt : Int
  poAt : Int
deriving DecidableEq

/-- The stream state: `struct argp_fmtstream` with the sink replaced by
the accumulated `output` bytes and the ghost search `log`. -/
structure FS where
  buf : List Nat
  p : Int
  point_offs : Int
  point_col : Int
  lmargin : Nat
  rmargin : Nat
  wmargin : Int
  output : List Nat
  log : List SRec
deriving DecidableEq

/-- Byte read at integer offset `i`: bytes outside the allocation (and
malloc-fresh bytes, which the allocation model zero-fills) read as 0. -/
def byteAtI (l : List Nat) (i : Int) : Nat :=
  if 0 ≤ i then (l.get? i.toNat).getD 0 else 0

/-- Byte write at integer offset `i`; writes outside the allocation
corrupt untracked memory and leave the modelled buffer unchanged. -/
def setByteI (l : List Nat) (i : Int) (v : Nat) : List Nat :=
  if 0 ≤ i then l.set i.toNat v else l

/-- The `len` bytes starting at offset `start` (zero-extended reads). -/
def readBytes (l : List Nat) (start : Int) (len : Nat) : List Nat :=
  (List.range len).map (fun (j : Nat) => byteAtI l (start + (j : Int)))

/-- `memmove (buf + dest, buf + src, len)` restricted to the allocation:
position `j` receives the byte from `src + (j - dest)` when it lies in
the destination range and keeps its old byte otherwise (memmove copies
as if through a temporary buffer). Callers guard `len < 0`. -/
def memmoveI (l : List Nat) (dest src len : Int) : List Nat :=
  (List.range l.length).map (fun (j : Nat) =>
    if dest ≤ (j : Int) ∧ (j : Int) < dest + len then byteAtI l (src + ((j : Int) - dest))
    else byteAtI l (j : Int))

/-- Write the byte list `bs` starting at offset `a` (a `memcpy`). -/
def writeBytesAt : List Nat → Int → List Nat → List Nat
  | l, _, [] => l
  | l, a, b :: bs => writeBytesAt (setByteI l a b) (a + 1) bs

/-- First offset in `[start, start + n)` holding byte `c`, reading the
zero-extended buffer. -/
def scanFor (l : List Nat) (c : Nat) : Int → Nat → Option Int
  | _, 0 => none
  | start, n + 1 => if byteAtI l start = c then some start else scanFor l c (start + 1) n

/-- `memchr (buf + start, c, len)` with `len` the `Int` reading of the
`size_t` argument.  A negative `len` is a length of at least 2^63:
the scan runs to the end of the allocation and, in the zero heap
model, crashes (`none`) if the byte was not found there.  Otherwise
`some (some a)` is a hit at offset `a` and `some none` a miss. -/
def memchrI (l : List Nat) (c : Nat) (start len : Int) : Option (Option Int) :=
  if len < 0 then
    match scanFor l c start ((l.length : Int) - start).toNat with
    | some a => some (some a)
    | none => none
  else
    some (scanFor l c start len.toNat)

/-- Suffix argument of `line_at_point`: `none` is the C `NULL`. -/
def suffixBytes : Option (List Nat) → List Nat
  | none => []
  | some s => s

/-- The space-reclamation loop of `line_at_point` (argp-fmtstream.c lines
132-155): while `fs->p + space_needed > fs->end`, find the last-line
terminator `memchr (fs->buf, newline, fs->point_offs)` (falling back to
writing a terminator at `queue - 1`, with `queue` the function-entry
point pointer `q`), emit `fs->buf[0 .. nl)` and a terminator to the
sink, then `memmove (fs->buf, nl + 1, nl + 1 - fs->buf)` — the length
the source uses is `nl + 1 - fs->buf`, the flushed byte count — and
retract `p` and `point_offs` by `nl + 1 - fs->buf`.  `spaceEff` is
`space_needed` read through the mod-2^64 congruence (see header). -/
def lapFlush (spaceEff q : Int) : Nat → FS → Option FS
  | 0, s => if s.p + spaceEff > (s.buf.length : Int) then none else some s
  | fuel + 1, s =>
    if s.p + spaceEff > (s.buf.length : Int) then
      match memchrI s.buf 10 0 s.point_offs with
      | none => none
      | some r =>
        let nl : Int := match r with | some a => a | none => q - 1
        let buf1 := match r with | some _ => s.buf | none => setByteI s.buf (q - 1) 10
        let emitted := (if 0 < nl then readBytes buf1 0 nl.toNat else []) ++ [10]
        if nl + 1 < 0 then none else
        lapFlush spaceEff q fuel
          { s with
            buf := memmoveI buf1 0 (nl + 1) (nl + 1)
            p := s.p - (nl + 1)
            point_offs := s.point_offs - (nl + 1)
            output := s.output ++ emitted }
    else some s

/-- `line_at_point` (argp-fmtstream.c lines 123-166): reclaim space via
`lapFlush`, then `memmove (queue + space_needed, queue, fs->p - queue)`
with `queue` the stale entry pointer, copy the suffix to `queue`,
advance `point_offs` by the suffix length, write `lmargin` spaces at
`point_offs` when `point_col` is not the -1 sentinel (advancing
`point_offs` past them), and set `point_col = lmargin` unconditionally.
The write cursor `fs->p` is never changed by the insertion. -/
def line_at_point (fuel : Nat) (s : FS) (suffix : Option (List Nat)) : Option FS :=
  let q := s.point_offs
  let spaceEff : Int := s.wmargin + (suffixBytes suffix).length
  match lapFlush spaceEff q fuel s with
  | none => none
  | some s1 =>
    let mlen := s1.p - q
    if mlen < 0 then none else
    let buf1 := memmoveI s1.buf (q + spaceEff) q mlen
    let buf2 := match suffix with
      | none => buf1
      | some sb => writeBytesAt buf1 q sb
    let po2 := s1.point_offs + (suffixBytes suffix).length
    let buf3 := if s1.point_col ≠ -1 then writeBytesAt buf2 po2 (List.replicate s1.lmargin 32) else buf2
    let po3 := if s1.point_col ≠ -1 then po2 + s1.lmargin else po2
    some { s1 with buf := buf3, point_offs := po3, point_col := (s1.lmargin : Int) }

/-- Modelled from the spec: the wrap-mode break classifier.  The build
of this file outside glibc takes `ulc_width_linebreaks` from gnulib's
unilbrk module, which is not under src/ (the in-file `uwl_shim` is
compiled only under `_LIBC` and does not even compile as written — it
returns the undeclared `last_break`).  Per spec section 4.2 the
classifier labels each byte no-break (0), possible (1) or mandatory (3)
— hyphenation is unsupported by this minimal classifier — marking a
literal terminator mandatory and the last inter-word whitespace
position possible once the running display column reaches the wrap
width, and returns the final running column; ASCII bytes have display
width 1 and a terminator resets the column to 0.  `n` counts the bytes
left to scan (`bytes.length - i` at entry). -/
def classifyAux (bytes : List Nat) (width : Int) :
    Nat → Nat → Int → Option Nat → List Nat → List Nat × Int
  | 0, _, col, _, labs => (labs, col)
  | n + 1, i, col, lastOpt, labs =>
    let b := bytes.getD i 0
    if b = 10 then classifyAux bytes width n (i + 1) 0 none (labs.set i 3)
    else if b = 32 ∨ b = 9 then classifyAux bytes width n (i + 1) (col + 1) (some i) labs
    else if width ≤ col ∧ lastOpt.isSome then
      classifyAux bytes width n (i + 1) 1 none (labs.set (lastOpt.getD 0) 1)
    else classifyAux bytes width n (i + 1) (col + 1) lastOpt labs

/-- Break labels and final column for the unprocessed span. -/
def classify (bytes : List Nat) (width startCol : Int) : List Nat × Int :=
  classifyAux bytes width bytes.length 0 startCol none (List.replicate bytes.length 0)

/-- One iteration of the wrap-mode rewrite loop (argp-fmtstream.c lines
281-300): hyphenation splices with suffix hyphen-newline, a possible
break splices with suffix newline, a mandatory break advances
`point_offs` past the terminator and splices with no suffix, and
anything else advances `point_offs` by one. -/
def wrapStep (fuel : Nat) (s : FS) (lab : Nat) : Option FS :=
  if lab = 2 then line_at_point fuel s (some [45, 10])
  else if lab = 1 then line_at_point fuel s (some [10])
  else if lab = 3 then line_at_point fuel { s with point_offs := s.point_offs + 1 } none
  else some { s with point_offs := s.point_offs + 1 }

/-- The wrap-mode rewrite loop over the classifier labels. -/
def wrapLoop (fuel : Nat) : FS → List Nat → Option FS
  | s, [] => some s
  | s, lab :: rest => (wrapStep fuel s lab).bind (fun s1 => wrapLoop fuel s1 rest)

/-- The search window `fs->rmargin - fs->point_col` of the truncate-mode
rewrite loop, as the `Int` reading of the `size_t` subtraction. -/
def rmRem (s : FS) : Int := (s.rmargin : Int) - s.point_col

/-- The truncate-mode rewrite loop (argp-fmtstream.c lines 240-271),
`q` being the stale `queue = fs->buf + fs->point_offs` captured at
`__argp_fmtstream_update` entry.  While `fs->buf + fs->point_offs <
fs->p`: search `memchr (fs->buf + fs->point_offs, newline,
fs->rmargin - fs->point_col)`; on a hit set `fs->point_offs = nl -
queue` and splice.  On a miss advance `point_offs` by `rmargin -
point_col` and search again from `fs->buf + fs->point_offs + fs->rmargin
- fs->point_col` with length `fs->p - fs->buf - fs->point_offs`; if
that misses, write a terminator at `point_offs`, make it the new write
cursor, splice and return; if it hits at `nl`, write a terminator at
`point_offs`, `memmove (fs->buf + fs->point_offs, nl + 1, nl + 1 -
fs->buf - fs->point_offs)` and splice.  Each search is recorded in the
ghost `log`. -/
def truncLoop (q : Int) : Nat → FS → Option FS
  | 0, _ => none
  | fuel + 1, s =>
    if s.point_offs < s.p then
      match memchrI s.buf 10 s.point_offs (rmRem s) with
      | none => none
      | some (some a) =>
        (line_at_point (fuel + 1)
            { s with point_offs := a - q
                     log := s.log ++ [(⟨s.point_offs, rmRem s, s.p, s.point_offs⟩ : SRec)] }
            none).bind (truncLoop q fuel)
      | some none =>
        match memchrI s.buf 10 (s.point_offs + rmRem s + rmRem s) (s.p - (s.point_offs + rmRem s)) with
        | none => none
        | some none =>
          line_at_point (fuel + 1)
            { s with
              buf := setByteI s.buf (s.point_offs + rmRem s) 10
              point_offs := s.point_offs + rmRem s + 1
              p := s.point_offs + rmRem s + 1
              log := s.log ++
                [(⟨s.point_offs, rmRem s, s.p, s.point_offs⟩ : SRec),
                 (⟨s.point_offs + rmRem s + rmRem s, s.p - (s.point_offs + rmRem s), s.p,
                   s.point_offs + rmRem s⟩ : SRec)] }
            none
        | some (some a2) =>
          if a2 + 1 - (s.point_offs + rmRem s + 1) < 0 then none else
          (line_at_point (fuel + 1)
              { s with
                buf := memmoveI (setByteI s.buf (s.point_offs + rmRem s) 10)
                  (s.point_offs + rmRem s + 1) (a2 + 1) (a2 + 1 - (s.point_offs + rmRem s + 1))
                point_offs := s.point_offs + rmRem s + 1
                log := s.log ++
                  [(⟨s.point_offs, rmRem s, s.p, s.point_offs⟩ : SRec),
                   (⟨s.point_offs + rmRem s + rmRem s, s.p - (s.point_offs + rmRem s), s.p,
                     s.point_offs + rmRem s⟩ : SRec)] }
              none).bind (truncLoop q fuel)
    else some s

/-- `__argp_fmtstream_update` (argp-fmtstream.c lines 230-304): return
immediately when `queue >= fs->p`; in truncate mode (`wmargin == -1`)
run the truncate loop; otherwise classify the unprocessed span
(`lns` allocation assumed to succeed), run the wrap loop over the
labels, and store the classifier's final column in `point_col`. -/
def update (fuel : Nat) (s : FS) : Option FS :=
  if s.p ≤ s.point_offs then some s
  else if s.wmargin = -1 then truncLoop s.point_offs fuel s
  else
    (wrapLoop fuel s (classify (readBytes s.buf s.point_offs (s.p - s.point_offs).toNat)
        ((s.rmargin : Int) - s.wmargin) (if s.point_col = -1 then 0 else s.point_col)).1).map
      (fun s1 =>
        { s1 with point_col := (classify (readBytes s.buf s.point_offs (s.p - s.point_offs).toNat)
            ((s.rmargin : Int) - s.wmargin) (if s.point_col = -1 then 0 else s.point_col)).2 })

/-- Result of `__argp_fmtstream_ensure`: success, sink write failure
(short write), or out of memory (overflowing growth or failed
reallocation, the branch that sets `ENOMEM`). -/
inductive ERes
  | ok
  | werr
  | oom
deriving DecidableEq

/-- Free bytes between the write cursor and the capacity end. -/
def fsFree (s : FS) : Int := (s.buf.length : Int) - s.p

/-- `__argp_fmtstream_ensure` (argp-fmtstream.c lines 308-357).  When
`(size_t) (fs->end - fs->p) < amount` (the `0 ≤ fsFree` conjunct is the
mod-2^64 reading: a negative difference converts to a huge `size_t` and
fails the comparison): run `update`, write `fs->buf[0 .. p)` to the
sink, which accepts `accept` bytes at most; on a full write zero the
cursors and, if the buffer is still smaller than `amount`, grow it to
`old size + amount` unless the addition overflows `size_t` or
reallocation fails (`allocOk = false`), which is the ENOMEM failure;on
a short write of `wrote` bytes retract both cursors by `wrote`,
`memmove` the remainder to the buffer head and fail. -/
def ensure (fuel : Nat) (s : FS) (amount accept : Nat) (allocOk : Bool) :
    Option (FS × ERes) :=
  if 0 ≤ fsFree s ∧ fsFree s < (amount : Int) then
    match update fuel s with
    | none => none
    | some s1 =>
      if s1.p < 0 then none else
      if min accept s1.p.toNat = s1.p.toNat then
        if s1.buf.length < amount then
          if 2 ^ 64 ≤ s1.buf.length + amount ∨ allocOk = false then
            some ({ s1 with
              output := s1.output ++ readBytes s1.buf 0 (min accept s1.p.toNat)
              p := 0
              point_offs := 0 }, ERes.oom)
          else
            some ({ s1 with
              output := s1.output ++ readBytes s1.buf 0 (min accept s1.p.toNat)
              p := 0
              point_offs := 0
              buf := s1.buf ++ List.replicate amount 0 }, ERes.ok)
        else
          some ({ s1 with
            output := s1.output ++ readBytes s1.buf 0 (min accept s1.p.toNat)
            p := 0
            point_offs := 0 }, ERes.ok)
      else
        some ({ s1 with
          output := s1.output ++ readBytes s1.buf 0 (min accept s1.p.toNat)
          buf := memmoveI s1.buf 0 ((min accept s1.p.toNat : Nat) : Int)
            (s1.p - (min accept s1.p.toNat))
          p := s1.p - (min accept s1.p.toNat)
          point_offs := s1.point_offs - (min accept s1.p.toNat) }, ERes.werr)
  else some (s, ERes.ok)

/-- Initial allocation size of `__argp_make_fmtstream`. -/
def INIT_BUF_SIZE : Nat := 200

/-- Size guess `__argp_fmtstream_printf` starts from. -/
def PRINTF_SIZE_GUESS : Nat := 150

/-- `__argp_make_fmtstream` (argp-fmtstream.c lines 60-91) with both
allocations succeeding: store the margins, zero `point_col` and
`point_offs`, allocate an `INIT_BUF_SIZE` buffer (zero-filled fresh
heap model) with `p = buf` and `end = buf + INIT_BUF_SIZE`. -/
def make_fmtstream (lm rm : Nat) (wm : Int) : FS :=
  { buf := List.replicate INIT_BUF_SIZE 0
    p := 0
    point_offs := 0
    point_col := 0
    lmargin := lm
    rmargin := rm
    wmargin := wm
    output := []
    log := [] }

/-- The retry loop of `__argp_fmtstream_printf` (argp-fmtstream.c lines
359-385): ensure `guess` bytes, format into `[p, p + avail)` —
`vsnprintf` writes at most `avail - 1` bytes plus a terminating NUL and
returns the full length `out` — and repeat with `guess = out + 1`
while `out >= avail`; afterwards advance `p` by `out`.  `some (s, none)`
is the -1 return after a failed ensure. -/
def printfLoop (bytes : List Nat) (accept : Nat) (allocOk : Bool) :
    Nat → FS → Nat → Option (FS × Option Nat)
  | 0, _, _ => none
  | fuel + 1, s, guess =>
    match ensure fuel s guess accept allocOk with
    | none => none
    | some (s1, r) =>
      if r = ERes.ok then
        if s1.p < 0 then none else
        let avail : Int := (s1.buf.length : Int) - s1.p
        let out := bytes.length
        if avail ≤ (out : Int) then
          let buf1 :=
            if avail = 0 then s1.buf
            else setByteI (writeBytesAt s1.buf s1.p (bytes.take (avail.toNat - 1)))
              (s1.p + (avail - 1)) 0
          printfLoop bytes accept allocOk fuel { s1 with buf := buf1 } (out + 1)
        else
          some ({ s1 with
            buf := setByteI (writeBytesAt s1.buf s1.p bytes) (s1.p + out) 0
            p := s1.p + out }, some out)
      else some (s1, none)

/-- `__argp_fmtstream_printf` appending the already-formatted byte list
`bytes` (the format step `vsnprintf` itself is outside src/ and is
taken as producing `bytes`). -/
def fmtstream_printf (fuel : Nat) (s : FS) (bytes : List Nat) (accept : Nat)
    (allocOk : Bool) : Option (FS × Option Nat) :=
  printfLoop bytes accept allocOk fuel s PRINTF_SIZE_GUESS

/-- `__argp_fmtstream_free` (argp-fmtstream.c lines 100-114): run the
rewrite pass, then write `fs->buf[0 .. p)` to the sink when `p > buf`
(the destroy-time flush ignores short writes) and release the stream.
The result is the final state, whose `output` holds every byte the sink
received over the stream's lifetime. -/
def fmtstream_free (fuel : Nat) (s : FS) : Option FS :=
  (update fuel s).map (fun s1 =>
    if 0 < s1.p then { s1 with output := s1.output ++ readBytes s1.buf 0 s1.p.toNat }
    else s1)

/-- Scenario state for claims C3: a wrap-mode stream mid-processing,
with plenty of room for the insertion (buffer `abcdef`, capacity 12,
write cursor 6, point at 2, `lmargin = 2`, `rmargin = 10`,
`wmargin = 0`). -/
def c3state : FS :=
  { buf := [97, 98, 99, 100, 101, 102, 0, 0, 0, 0, 0, 0]
    p := 6
    point_offs := 2
    point_col := 0
    lmargin := 2
    rmargin := 10
    wmargin := 0
    output := []
    log := [] }

/-- Scenario state for claim C4: a wrap-mode stream whose buffer
(`a`, newline, `cdefgh`; capacity 8) is full, so that splicing with a
one-byte suffix and `wmargin = 1` needs the reclamation loop. -/
def c4state : FS :=
  { buf := [97, 10, 99, 100, 101, 102, 103, 104]
    p := 8
    point_offs := 4
    point_col := 0
    lmargin := 0
    rmargin := 10
    wmargin := 1
    output := []
    log := [] }

/-- Scenario state for claim C7: a flushed-rewrite stream (point at the
write cursor) holding 3 pending bytes in a capacity-4 buffer. -/
def c7state : FS :=
  { buf := [1, 2, 3, 4]
    p := 3
    point_offs := 3
    point_col := 0
    lmargin := 0
    rmargin := 5
    wmargin := -1
    output := []
    log := [] }

/-- Scenario state for the C9 witness: truncate mode, `rmargin = 3`,
three unprocessed bytes `abc` and no terminator. -/
def c9state : FS :=
  { buf := [97, 98, 99, 0]
    p := 3
    point_offs := 0
    point_col := 0
    lmargin := 0
    rmargin := 3
    wmargin := -1
    output := []
    log := [] }

theorem length_setByteI (l : List Nat) (i : Int) (v : Nat) :
    (setByteI l i v).length = l.length := by
  unfold setByteI; split <;> simp

theorem length_memmoveI (l : List Nat) (d s n : Int) :
    (memmoveI l d s n).length = l.length := by
  unfold memmoveI; simp

theorem length_writeBytesAt : ∀ (bs l : List Nat) (a : Int),
    (writeBytesAt l a bs).length = l.length := by
  intro bs
  induction bs with
  | nil => intro l a; rfl
  | cons b bs ih => intro l a; rw [writeBytesAt, ih, length_setByteI]

theorem lapFlush_frame (sp q : Int) : ∀ (fuel : Nat) (s s' : FS),
    lapFlush sp q fuel s = some s' →
    s'.buf.length = s.buf.length ∧
    s'.point_offs - s'.p = s.point_offs - s.p ∧
    s'.point_col = s.point_col ∧ s'.lmargin = s.lmargin ∧
    s'.wmargin = s.wmargin ∧ s'.rmargin = s.rmargin ∧ s'.log = s.log := by
  intro fuel
  induction fuel with
  | zero =>
    intro s s' h
    rw [lapFlush] at h
    split at h
    · exact absurd h (by simp)
    · cases h; exact ⟨rfl, rfl, rfl, rfl, rfl, rfl, rfl⟩
  | succ n ih =>
    intro s s' h
    rw [lapFlush] at h
    split at h
    · cases hm : memchrI s.buf 10 0 s.point_offs with
      | none => rw [hm] at h; exact absurd h (by simp)
      | some r =>
        rw [hm] at h
        simp only at h
        split at h
        · exact absurd h (by simp)
        · have := ih _ _ h
          rcases this with ⟨h1, h2, h3, h4, h5, h6, h7⟩
          refine ⟨?_, by simpa using h2, h3, h4, h5, h6, h7⟩
          rw [h1]
          simp only [length_memmoveI]
          cases r <;> simp [length_setByteI]
    · cases h; exact ⟨rfl, rfl, rfl, rfl, rfl, rfl, rfl⟩

theorem lap_frame (fuel : Nat) (s : FS) (suffix : Option (List Nat)) (s' : FS)
    (h : line_at_point fuel s suffix = some s') :
    s'.buf.length = s.buf.length ∧
    s.point_offs - s.p + (suffixBytes suffix).length ≤ s'.point_offs - s'.p ∧
    s'.wmargin = s.wmargin ∧ s'.rmargin = s.rmargin ∧ s'.lmargin = s.lmargin ∧
    s'.log = s.log := by
  simp only [line_at_point] at h
  cases hf : lapFlush (s.wmargin + ((suffixBytes suffix).length : Int)) s.point_offs fuel s with
  | none => rw [hf] at h; exact absurd h (by simp)
  | some s1 =>
    rw [hf] at h
    simp only at h
    split at h
    · exact absurd h (by simp)
    · rcases lapFlush_frame _ _ _ _ _ hf with ⟨h1, h2, h3, h4, h5, h6, h7⟩
      cases h
      constructor
      · split <;> cases suffix <;>
          simp only [length_writeBytesAt, length_memmoveI, h1]
      refine ⟨?_, h5, h6, h4, h7⟩
      split <;> simp only <;> omega


theorem truncLoop_post (q : Int) : ∀ (fuel : Nat) (s s' : FS),
    truncLoop q fuel s = some s' →
    s'.p ≤ s'.point_offs ∧ s'.buf.length = s.buf.length := by
  intro fuel
  induction fuel with
  | zero => intro s s' h; exact absurd h (by rw [truncLoop]; simp)
  | succ n ih =>
    intro s s' h
    rw [truncLoop] at h
    split at h
    case isFalse hc => cases h; exact ⟨by omega, rfl⟩
    case isTrue hc =>
      cases hm : memchrI s.buf 10 s.point_offs (rmRem s) with
      | none => rw [hm] at h; exact absurd h (by simp)
      | some r =>
        rw [hm] at h
        cases r with
        | some a =>
          simp only [Option.bind_eq_bind, Option.bind_eq_some] at h
          rcases h with ⟨t, ht, hloop⟩
          rcases ih _ _ hloop with ⟨hp, hlen⟩
          rcases lap_frame _ _ _ _ ht with ⟨hlen2, _, _, _, _, _⟩
          exact ⟨hp, by rw [hlen, hlen2]⟩
        | none =>
          simp only at h
          cases hm2 : memchrI s.buf 10 (s.point_offs + rmRem s + rmRem s)
              (s.p - (s.point_offs + rmRem s)) with
          | none => rw [hm2] at h; exact absurd h (by simp)
          | some r2 =>
            rw [hm2] at h
            cases r2 with
            | none =>
              simp only at h
              rcases lap_frame _ _ _ _ h with ⟨hlen2, hd, _, _, _, _⟩
              constructor
              · simp only [suffixBytes, List.length_nil, Nat.cast_zero] at hd; omega
              · rw [hlen2]; simp [length_setByteI]
            | some a2 =>
              simp only at h
              split at h
              · exact absurd h (by simp)
              · simp only [Option.bind_eq_bind, Option.bind_eq_some] at h
                rcases h with ⟨t, ht, hloop⟩
                rcases ih _ _ hloop with ⟨hp, hlen⟩
                rcases lap_frame _ _ _ _ ht with ⟨hlen2, _, _, _, _, _⟩
                refine ⟨hp, ?_⟩
                rw [hlen, hlen2]
                simp [length_memmoveI, length_setByteI]


theorem wrapStep_diff (fuel : Nat) (s : FS) (lab : Nat) (s' : FS)
    (h : wrapStep fuel s lab = some s') :
    s.point_offs - s.p + 1 ≤ s'.point_offs - s'.p ∧ s'.buf.length = s.buf.length := by
  unfold wrapStep at h
  split at h
  · rcases lap_frame _ _ _ _ h with ⟨h1, h2, _⟩
    simp only [suffixBytes, List.length_cons, List.length_singleton] at h2
    exact ⟨by omega, h1⟩
  · split at h
    · rcases lap_frame _ _ _ _ h with ⟨h1, h2, _⟩
      simp only [suffixBytes, List.length_singleton] at h2
      exact ⟨by omega, h1⟩
    · split at h
      · rcases lap_frame _ _ _ _ h with ⟨h1, h2, _⟩
        have h3 : s.point_offs + 1 - s.p + (((suffixBytes none).length : Nat) : Int) ≤
            s'.point_offs - s'.p := h2
        simp only [suffixBytes, List.length_nil, Nat.cast_zero] at h3
        exact ⟨by omega, h1⟩
      · cases h
        refine ⟨?_, rfl⟩
        show s.point_offs - s.p + 1 ≤ s.point_offs + 1 - s.p
        omega

theorem wrapLoop_diff (fuel : Nat) : ∀ (labs : List Nat) (s s' : FS),
    wrapLoop fuel s labs = some s' →
    s.point_offs - s.p + labs.length ≤ s'.point_offs - s'.p := by
  intro labs
  induction labs with
  | nil => intro s s' h; rw [wrapLoop] at h; cases h; simp
  | cons lab rest ih =>
    intro s s' h
    rw [wrapLoop] at h
    simp only [Option.bind_eq_bind, Option.bind_eq_some] at h
    rcases h with ⟨t, ht, hrest⟩
    have h1 := wrapStep_diff _ _ _ _ ht
    have h2 := ih _ _ hrest
    simp only [List.length_cons]
    push_cast
    push_cast at h2
    omega

theorem wrapLoop_buflen (fuel : Nat) : ∀ (labs : List Nat) (s s' : FS),
    wrapLoop fuel s labs = some s' → s'.buf.length = s.buf.length := by
  intro labs
  induction labs with
  | nil => intro s s' h; rw [wrapLoop] at h; cases h; rfl
  | cons lab rest ih =>
    intro s s' h
    rw [wrapLoop] at h
    simp only [Option.bind_eq_bind, Option.bind_eq_some] at h
    rcases h with ⟨t, ht, hrest⟩
    rw [ih _ _ hrest, (wrapStep_diff _ _ _ _ ht).2]

theorem classifyAux_length (bytes : List Nat) (width : Int) : ∀ (n i : Nat) (col : Int)
    (lastOpt : Option Nat) (labs : List Nat),
    (classifyAux bytes width n i col lastOpt labs).1.length = labs.length := by
  intro n
  induction n with
  | zero => intro i col lastOpt labs; rw [classifyAux]
  | succ m ih =>
    intro i col lastOpt labs
    rw [classifyAux]
    split
    · rw [ih]; simp
    · split
      · rw [ih]
      · split
        · rw [ih]; simp
        · rw [ih]

theorem update_noop (fuel : Nat) (s : FS) (h : s.p ≤ s.point_offs) :
    update fuel s = some s := by
  unfold update
  rw [if_pos h]

/-- After any terminating run of the rewrite pass, the point is at or
past the write cursor, so the unprocessed span is empty. -/
theorem update_terminal (fuel : Nat) (s s' : FS) (h : update fuel s = some s') :
    s'.p ≤ s'.point_offs := by
  unfold update at h
  split at h
  · cases h; omega
  · split at h
    · exact (truncLoop_post _ _ _ _ h).1
    · cases hw : wrapLoop fuel s (classify (readBytes s.buf s.point_offs (s.p - s.point_offs).toNat)
          ((s.rmargin : Int) - s.wmargin) (if s.point_col = -1 then 0 else s.point_col)).1 with
      | none => rw [hw] at h; exact absurd h (by simp)
      | some t =>
        rw [hw] at h
        rw [Option.map_some'] at h
        cases h
        have h1 := wrapLoop_diff _ _ _ _ hw
        have hlen : (classify (readBytes s.buf s.point_offs (s.p - s.point_offs).toNat)
            ((s.rmargin : Int) - s.wmargin) (if s.point_col = -1 then 0 else s.point_col)).1.length =
            (s.p - s.point_offs).toNat := by
          unfold classify
          rw [classifyAux_length, List.length_replicate]
          unfold readBytes
          rw [List.length_map, List.length_range]
        rw [hlen] at h1
        show t.p ≤ t.point_offs
        omega

theorem update_buflen (fuel : Nat) (s s' : FS) (h : update fuel s = some s') :
    s'.buf.length = s.buf.length := by
  unfold update at h
  split at h
  · cases h; rfl
  · split at h
    · exact (truncLoop_post _ _ _ _ h).2
    · cases hw : wrapLoop fuel s (classify (readBytes s.buf s.point_offs (s.p - s.point_offs).toNat)
          ((s.rmargin : Int) - s.wmargin) (if s.point_col = -1 then 0 else s.point_col)).1 with
      | none => rw [hw] at h; exact absurd h (by simp)
      | some t =>
        rw [hw] at h
        rw [Option.map_some'] at h
        cases h
        show t.buf.length = s.buf.length
        exact wrapLoop_buflen _ _ _ _ hw

/-- C9: the rewrite pass is idempotent: for every stream state whose
rewrite-pass call terminates, calling the rewrite pass again with no
intervening append returns exactly the state the first call produced —
the same sink output, the same `write_cursor`, `point_offs` and
`point_col`, with no additional output and no cursor movement. -/
theorem update_idempotent (f f' : Nat) (s s' : FS) (h : update f s = some s') :
    update f' s' = some s' :=
  update_noop f' s' (update_terminal f s s' h)

/-- Witness for C9 at the concrete truncate-mode state `c9state`. -/
theorem update_idempotent_witness :
    update 1 ((update 50 c9state).getD c9state) = some ((update 50 c9state).getD c9state) :=
  update_idempotent 50 1 c9state ((update 50 c9state).getD c9state) (by decide)

/-- C6: for every stream state satisfying the data-model cursor bounds
and every requested amount, a call to `ensure (amount)` that returns
success leaves at least `amount` free bytes between the write cursor
and the capacity end; when growth is needed (the buffer is smaller than
`amount`) the new buffer size is the old size plus `amount`; and,
whenever the flush succeeded so that the growth branch decides the
result, the call fails with the out-of-memory condition exactly when
the size addition overflows `size_t` or the reallocation fails. -/
theorem ensure_contract (fuel : Nat) (s : FS) (amount accept : Nat) (allocOk : Bool)
    (s' : FS) (r : ERes)
    (hp0 : 0 ≤ s.p) (hps : s.p ≤ (s.buf.length : Int)) (_hamt : amount < 2 ^ 64)
    (h : ensure fuel s amount accept allocOk = some (s', r)) :
    (r = ERes.ok → (amount : Int) ≤ fsFree s' ∧
      (s.buf.length < amount → s'.buf.length = s.buf.length + amount)) ∧
    (r ≠ ERes.werr → s.buf.length < amount →
      (r = ERes.oom ↔ (2 ^ 64 ≤ s.buf.length + amount ∨ allocOk = false))) := by
  unfold ensure at h
  split at h
  case isFalse hc =>
    cases h
    have hfree : (amount : Int) ≤ fsFree s := by
      unfold fsFree at hc ⊢; omega
    constructor
    · intro _
      refine ⟨hfree, fun hlt => absurd hfree (by unfold fsFree; omega)⟩
    · intro _ hlt
      exact absurd hfree (by unfold fsFree; omega)
  case isTrue hc =>
    split at h
    · exact absurd h (by simp)
    next s1 hu =>
      have hlen1 : s1.buf.length = s.buf.length := update_buflen _ _ _ hu
      split at h
      · exact absurd h (by simp)
      next hp1 =>
        split at h
        case isTrue hfull =>
          split at h
          case isTrue hsmall =>
            split at h
            case isTrue hcause =>
              cases h
              refine ⟨by simp, fun _ _ => ?_⟩
              simp only [hlen1] at hcause
              simpa using hcause
            case isFalse hcause =>
              cases h
              constructor
              · intro _
                constructor
                · show (amount : Int) ≤ ((s1.buf ++ List.replicate amount 0).length : Int) - 0
                  simp
                · intro _
                  show (s1.buf ++ List.replicate amount 0).length = s.buf.length + amount
                  simp [hlen1]
              · intro _ _
                constructor
                · intro hoom; exact absurd hoom (by simp)
                · intro hcaus; rw [hlen1] at hcause; exact absurd hcaus hcause
          case isFalse hsmall =>
            cases h
            rw [hlen1] at hsmall
            constructor
            · intro _
              refine ⟨?_, fun hlt => absurd hlt hsmall⟩
              show (amount : Int) ≤ (s1.buf.length : Int) - 0
              rw [hlen1]; omega
            · intro _ hlt; exact absurd hlt hsmall
        case isFalse hfull =>
          cases h
          exact ⟨fun hok => absurd hok (by simp), fun hne => absurd rfl hne⟩

theorem get?_map_range (f : Nat → Nat) (n i : Nat) (hi : i < n) :
    (((List.range n).map f).get? i) = some (f i) := by
  rw [List.get?_map, List.get?_range hi, Option.map_some']

theorem byteAtI_memmoveI (l : List Nat) (d src len j : Int)
    (h0 : 0 ≤ j) (hl : j < (l.length : Int)) :
    byteAtI (memmoveI l d src len) j =
      if d ≤ j ∧ j < d + len then byteAtI l (src + (j - d)) else byteAtI l j := by
  have hj : j.toNat < l.length := by omega
  have hcast : ((j.toNat : Nat) : Int) = j := Int.toNat_of_nonneg h0
  unfold memmoveI byteAtI
  rw [if_pos h0, get?_map_range _ _ _ hj, Option.getD_some, hcast]

theorem readBytes_memmoveI_head (l : List Nat) (w n : Nat)
    (hn : w + n ≤ l.length) :
    readBytes (memmoveI l 0 (w : Int) (n : Int)) 0 n = readBytes l (w : Int) n := by
  unfold readBytes
  apply List.map_congr_left
  intro j hj
  rw [List.mem_range] at hj
  have h1 := byteAtI_memmoveI l 0 (w : Int) (n : Int) (0 + (j : Int))
    (by omega) (by omega)
  rw [h1, if_pos (by constructor <;> omega)]
  congr 1
  omega

/-- C7: for every stream state with the rewrite pass already run (point
at or past the write cursor) that enters the flush path, when the sink
accepts only a strict prefix of `accept = w` bytes out of the `p`
pending, `ensure` emits exactly those `w` bytes, shifts the unwritten
remainder to the buffer start, decreases both `write_cursor` and
`point_offs` by exactly `w`, and reports the write failure; the second
conjunct checks the remainder at the buffer head equals the
not-yet-accepted bytes, so a later retry flushes the same content. -/
theorem ensure_short_write (fuel : Nat) (s : FS) (amount accept : Nat) (allocOk : Bool)
    (hpo : s.p ≤ s.point_offs) (hfree0 : 0 ≤ fsFree s) (hfree : fsFree s < (amount : Int))
    (hacc : (accept : Int) < s.p) :
    ensure fuel s amount accept allocOk =
      some ({ s with
        buf := memmoveI s.buf 0 (accept : Int) (s.p - accept)
        p := s.p - accept
        point_offs := s.point_offs - accept
        output := s.output ++ readBytes s.buf 0 accept }, ERes.werr) ∧
    readBytes (memmoveI s.buf 0 (accept : Int) (s.p - accept)) 0 (s.p - (accept : Int)).toNat =
      readBytes s.buf (accept : Int) (s.p - (accept : Int)).toNat := by
  have hp0 : 0 ≤ s.p := by omega
  have hmin : min accept s.p.toNat = accept := by omega
  constructor
  · unfold ensure
    rw [if_pos ⟨hfree0, hfree⟩]
    simp only [update_noop fuel s hpo]
    rw [if_neg (by omega), hmin, if_neg (by omega)]
  · have hlen : ((s.p - (accept : Int)).toNat : Int) = s.p - accept := by omega
    rw [← hlen]
    apply readBytes_memmoveI_head
    unfold fsFree at hfree0
    omega

/-- Witness for C7 at the concrete state `c7state` with a sink that
accepts one byte out of three pending. -/
theorem ensure_short_write_witness :
    ensure 10 c7state 10 1 true =
      some ({ c7state with
        buf := memmoveI c7state.buf 0 (1 : Int) (c7state.p - 1)
        p := c7state.p - 1
        point_offs := c7state.point_offs - 1
        output := c7state.output ++ readBytes c7state.buf 0 1 }, ERes.werr) ∧
    readBytes (memmoveI c7state.buf 0 (1 : Int) (c7state.p - 1)) 0 (c7state.p - (1 : Int)).toNat =
      readBytes c7state.buf (1 : Int) (c7state.p - (1 : Int)).toNat :=
  ensure_short_write 10 c7state 10 1 true (by decide) (by decide) (by decide) (by decide)

/-- Witness for C6: growing a fresh truncate-mode stream from 200 to
500 bytes through a successful `ensure 300`. -/
theorem ensure_contract_witness :
    (300 : Int) ≤ fsFree { make_fmtstream 0 5 (-1) with
        buf := List.replicate 500 0
        output := ([] : List Nat) } ∧
    ((make_fmtstream 0 5 (-1)).buf.length < 300 →
      (FS.buf { make_fmtstream 0 5 (-1) with
        buf := List.replicate 500 0
        output := ([] : List Nat) }).length = (make_fmtstream 0 5 (-1)).buf.length + 300) :=
  (ensure_contract 5 (make_fmtstream 0 5 (-1)) 300 0 true
      { make_fmtstream 0 5 (-1) with buf := List.replicate 500 0, output := ([] : List Nat) }
      ERes.ok (by decide) (by decide) (by decide) (by decide)).1 rfl

/-- C1: creating a stream with `left_margin = 0`, `right_margin = 5`
and `wrap_margin = -1` (truncate mode), appending `abcdefgh` plus a
newline through the formatted-append entry point and destroying the
stream makes the sink receive exactly the six bytes `abcde` plus a
newline: the three bytes `fgh` before the real terminator are discarded
and nothing else is emitted. -/
theorem truncate_scenario_output :
    ((fmtstream_printf 10 (make_fmtstream 0 5 (-1))
        [97, 98, 99, 100, 101, 102, 103, 104, 10] 1000 true).bind
      (fun ts => fmtstream_free 50 ts.1)).map FS.output =
    some [97, 98, 99, 100, 101, 10] := by decide

/-- C8 counterexample: the data-model ordering `point_offs ≤ p` is not
preserved.  Creating a truncate-mode stream with `left_margin = 2` and
`right_margin = 10`, appending `ab` plus a newline and running the
rewrite pass leaves `point_offs = 4` strictly above the write cursor
`p = 3`: the splice wrote the two margin spaces over live bytes and
advanced the point past the cursor without growing `p`. -/
theorem invariant_violation :
    ((fmtstream_printf 10 (make_fmtstream 2 10 (-1)) [97, 98, 10] 1000 true).bind
      (fun ts => update 50 ts.1)).map (fun s => (s.point_offs, s.p)) =
    some (4, 3) := by decide

/-- C10 counterexample: on the C1 scenario state (`right_margin = 5`,
nine unprocessed bytes `abcdefgh` + newline, `p = 9`), the second
terminator search of the truncate-mode rewrite pass is issued with
start offset 10 and length 4 while the write cursor is 9: every byte
position it examines lies at or beyond the write cursor, outside the
unprocessed span. -/
theorem oob_search :
    ((fmtstream_printf 10 (make_fmtstream 0 5 (-1))
        [97, 98, 99, 100, 101, 102, 103, 104, 10] 1000 true).bind
      (fun ts => update 50 ts.1)).map FS.log =
    some [⟨0, 5, 9, 0⟩, ⟨10, 4, 9, 5⟩] ∧ (9 : Int) ≤ 10 := by decide

/-- C5 counterexample: truncate mode, `right_margin = 5`, buffer
`abcdefgh` + newline + `xy` + newline.  The rewrite pass advances the
point by `rmargin - point_col = 5` to the truncation point 5, but then
searches from offset 10 = `point_offs + 2 * (rmargin - point_col)`
instead of from the truncation point, missing the real terminator at
offset 8; the `memmove` that should drop the truncated bytes copies the
gap length instead of the tail and never shrinks `p`, so the sink
receives `abcde` followed by six NUL bytes and a newline instead of
`abcde` + newline + `xy` + newline. -/
theorem truncate_search_misplaced :
    ((fmtstream_printf 10 (make_fmtstream 0 5 (-1))
        [97, 98, 99, 100, 101, 102, 103, 104, 10, 120, 121, 10] 1000 true).bind
      (fun ts => fmtstream_free 50 ts.1)).map (fun s => (s.output, s.log)) =
    some ([97, 98, 99, 100, 101, 0, 0, 0, 0, 0, 0, 10],
      [⟨0, 5, 12, 0⟩, ⟨10, 7, 12, 5⟩, ⟨6, 5, 12, 6⟩, ⟨16, 1, 12, 11⟩]) := by decide

/-- C2 counterexample: wrap mode with `left_margin = 0`,
`right_margin = 3`, `wrap_margin = 0`; append `ab`, space, `cd`,
newline.  The classifier marks the space a possible break, but the
splice writes the terminator at the point while the shifted copy keeps
the whitespace after it and the write cursor never grows, so sink plus
buffered bytes read `ab` + newline + space + `cd`: the whitespace is
duplicated after the break and the trailing terminator byte is lost,
instead of the claimed `ab` + newline + `cd` + newline. -/
theorem wrap_byte_loss :
    ((fmtstream_printf 10 (make_fmtstream 0 3 0) [97, 98, 32, 99, 100, 10] 1000 true).bind
      (fun ts => update 50 ts.1)).map (fun s => s.output ++ readBytes s.buf 0 s.p.toNat) =
    some [97, 98, 10, 32, 99, 100] ∧
    [97, 98, 10, 32, 99, 100] ≠ [97, 98, 10, 99, 100, 10] := by decide

/-- C3 counterexample: on `c3state` (wrap mode, `wmargin = 0`,
`lmargin = 2`, buffer `abcdef`, `p = 6`, point 2, ample free space),
splicing with the one-byte newline suffix shifts the tail by
`wmargin + 1 = 1` instead of the insertion length 3, overwrites the
shifted bytes `cd` with the margin spaces, and leaves the write cursor
at 6 instead of growing it to 9; and with the column-invalid sentinel
active the splice still sets `point_col` to `lmargin` instead of
leaving it invalid. -/
theorem splice_contract_violation :
    line_at_point 10 c3state (some [10]) =
      some { c3state with
        buf := [97, 98, 10, 32, 32, 101, 102, 0, 0, 0, 0, 0]
        point_offs := 5
        point_col := 2 } ∧
    (line_at_point 10 { c3state with point_col := -1 } (some [10])).map FS.point_col =
      some 2 := by decide

/-- C4 counterexample: on `c4state` (capacity 8, buffer `a` + newline +
`cdefgh`, `p = 8`, point 4, `wmargin = 1`), one iteration of the
reclamation loop flushes `a` + newline correctly but then moves only
the flushed length 2 of bytes instead of the whole remainder: the
buffer head becomes `cdcd` + `efgh` instead of `cdefgh`, duplicating
`cd` and leaving `gh` beyond the retracted cursors to be lost. -/
theorem reclamation_moves_wrong_length :
    lapFlush 2 4 10 c4state =
      some { c4state with
        buf := [99, 100, 99, 100, 101, 102, 103, 104]
        p := 6
        point_offs := 2
        output := [97, 10] } := by decide
